import Mathlib

/-!
Verification of the chunk-cache component of the gemini-tool-mcp repository.

Shallow embedding of `src/utils/chunkCache.ts` and (for the redaction claim)
`src/utils/logger.ts`.  The filesystem state is modelled as an association
list from file names inside the cache directory to file records (content and
modification time); the only directory the program ever touches is the cache
directory, as the path-resolution theorems show.  Opaque collaborator data
(`EditChunk`) is a type parameter.  The sha-256 digest function and the
byte-level random source are parameters of the model: the code treats both
as black boxes (`createHash('sha256')`, `randomBytes(4)`), and none of the
verified properties depend on the digest values themselves.  `Date.now()` is
an explicit `now : Nat` argument (epoch milliseconds).  A write that the code
would perform inside `try { fs.writeFileSync ... } catch { log }` is modelled
with a `writeOk : Bool` environment flag: `false` means the write (or the
serialisation) failed with a caught exception, leaving the filesystem
unchanged.  Caught-and-logged exceptions never escape in the source, so the
model functions are total.
-/

namespace ChunkCache

/-- Model of JavaScript `String.prototype.startsWith`, at the level of the
underlying character list. -/
def strStartsWith (s t : String) : Bool := t.data.isPrefixOf s.data

/-- Model of JavaScript `String.prototype.endsWith`. -/
def strEndsWith (s t : String) : Bool := t.data.isSuffixOf s.data

/-- Model of JavaScript `String.prototype.slice(0, n)`. -/
def strTake (s : String) (n : Nat) : String := String.mk (s.data.take n)

/-- Model of dropping the first `n` characters of a string. -/
def strDrop (s : String) (n : Nat) : String := String.mk (s.data.drop n)

/-- One character of a case-insensitive hex-digit class `[a-f0-9]` (the `i`
flag of the source regex also admits `A`–`F`). -/
def isHexDigitCI (c : Char) : Bool :=
  ('a' ≤ c && c ≤ 'f') || ('0' ≤ c && c ≤ '9') || ('A' ≤ c && c ≤ 'F')

/-- `CACHE_KEY_PATTERN = /^[a-f0-9]{8}$/i` from chunkCache.ts line 17,
as a test function: exactly 8 characters, each a hex digit, case-insensitive. -/
def CACHE_KEY_PATTERN (s : String) : Bool :=
  s.data.length == 8 && s.data.all isHexDigitCI

/-- The lowercase-only reading `^[a-f0-9]{8}$` (no `i` flag); this is the
pattern the specification text quotes. -/
def LOWER_HEX8 (s : String) : Bool :=
  s.data.length == 8 && s.data.all (fun c => ('a' ≤ c && c ≤ 'f') || ('0' ≤ c && c ≤ '9'))

/-- `CACHE_TTL = 10 * 60 * 1000` (milliseconds), chunkCache.ts line 15. -/
def CACHE_TTL : Nat := 10 * 60 * 1000

/-- `MAX_CACHE_FILES = 50`, chunkCache.ts line 16. -/
def MAX_CACHE_FILES : Nat := 50

/-- `CACHE_DIR = path.join(os.tmpdir(), 'gemini-mcp-chunks')`; the platform
temporary directory is modelled concretely as `/tmp`. -/
def CACHE_DIR : String := "/tmp/gemini-mcp-chunks"

/-- `path.sep` on the modelled (posix) platform. -/
def pathSep : String := "/"

/-- Split a character list at `'/'` separators (accumulator holds the
current component reversed). -/
def splitChars : List Char → List Char → List (List Char)
  | [], acc => [acc.reverse]
  | c :: cs, acc =>
    if c = '/' then acc.reverse :: splitChars cs [] else splitChars cs (c :: acc)

/-- The `'/'`-separated components of a path string. -/
def pathParts (s : String) : List String := (splitChars s.data []).map String.mk

/-- One normalisation step of path canonicalisation: empty components and
`.` are skipped, `..` pops the stack, anything else is pushed. -/
def normStep (stack : List String) (comp : String) : List String :=
  if comp = "" || comp = "." then stack
  else if comp = ".." then stack.dropLast
  else stack ++ [comp]

/-- Canonicalise a component list (resolve `.` and `..`). -/
def normParts (l : List String) : List String := l.foldl normStep []

/-- Render an absolute path from its canonical components. -/
def joinParts (l : List String) : String :=
  l.foldl (fun acc c => acc ++ "/" ++ c) ""

/-- Model of Node `path.resolve(p)` for an absolute `p`. -/
def pathResolveOne (p : String) : String := joinParts (normParts (pathParts p))

/-- Model of Node `path.resolve(base, rel)`: an absolute `rel` wins,
otherwise `rel` is resolved against `base`. -/
def pathResolveTwo (base rel : String) : String :=
  if strStartsWith rel "/" then joinParts (normParts (pathParts rel))
  else joinParts (normParts (pathParts base ++ pathParts rel))

/-- `resolveCachePath` from chunkCache.ts lines 31–37: validate the key
against `CACHE_KEY_PATTERN`, resolve `CACHE_DIR/<key>.json`, and insist the
canonical result starts with the canonical cache directory plus the path
separator.  Pure: no filesystem access. -/
def resolveCachePath (cacheKey : String) : Option String :=
  if !CACHE_KEY_PATTERN cacheKey then none
  else
    let base := pathResolveOne CACHE_DIR
    let resolved := pathResolveTwo CACHE_DIR (cacheKey ++ ".json")
    if !strStartsWith resolved (base ++ pathSep) then none
    else some resolved

/-- One byte-pair of `randomBytes(4).toString('hex')`: a single hex digit
(lowercase, as Node's hex encoding). -/
def hexDigitChar (n : Nat) : Char :=
  if n < 10 then Char.ofNat (48 + n) else Char.ofNat (87 + n)

/-- Model of `randomBytes(4).toString('hex')`: the 32-bit random value `n`
rendered as 8 lowercase hex characters, most significant digit first. -/
def toHex8 (n : Nat) : String :=
  let m := n % 4294967296
  String.mk ((List.range 8).map (fun i => hexDigitChar (m / 16 ^ (7 - i) % 16)))

/-- `CacheEntry` from chunkCache.ts lines 8–12.  `EditChunk` is opaque
collaborator data, hence a type parameter. -/
structure CacheEntry (EditChunk : Type) where
  chunks : List EditChunk
  timestamp : Nat
  promptHash : String
  deriving DecidableEq, Repr

/-- What a stored file's content parses to: either a valid serialised
`CacheEntry` (what `JSON.stringify` of a `CacheEntry` produces and
`JSON.parse` recovers) or unparsable garbage (`JSON.parse` throws). -/
inductive FileContent (EditChunk : Type) where
  | valid (entry : CacheEntry EditChunk)
  | corrupt
  deriving DecidableEq, Repr

/-- A file in the cache directory: its parsed content and its modification
time (`mtimeMs`, epoch milliseconds). -/
structure FileRec (EditChunk : Type) where
  content : FileContent EditChunk
  mtime : Nat
  deriving DecidableEq, Repr

/-- The cache directory's contents: an association list from file name
(the path component after `CACHE_DIR/`) to file record.  The program never
touches any other directory (see the path-safety theorems), so this is the
whole relevant filesystem state. -/
abbrev FS (EditChunk : Type) : Type := List (String × FileRec EditChunk)

/-- Look a file up by name (`fs.readFileSync` / `fs.existsSync` target). -/
def lookupFS {χ : Type} (fs : FS χ) (name : String) : Option (FileRec χ) :=
  (List.find? (fun e => e.1 == name) fs).map (fun e => e.2)

/-- `fs.unlinkSync`: remove the file of that name (no-op when absent). -/
def removeFS {χ : Type} (fs : FS χ) (name : String) : FS χ :=
  List.filter (fun e => !(e.1 == name)) fs

/-- `fs.writeFileSync`: (over)write the named file, setting its mtime. -/
def writeFS {χ : Type} (fs : FS χ) (name : String) (f : FileRec χ) : FS χ :=
  (name, f) :: removeFS fs name

/-- The names `fs.readdirSync(CACHE_DIR)` returns. -/
def readdirFS {χ : Type} (fs : FS χ) : List String := fs.map (fun e => e.1)

/-- A full resolved path `CACHE_DIR/<name>` stripped back to the in-directory
file name (the inverse of `path.join(CACHE_DIR, name)`). -/
def stripDirName (p : String) : String := strDrop p (CACHE_DIR.length + 1)

/-- `fs.existsSync` applied to an optional resolved path (`null` is never a
file). -/
def pathExists {χ : Type} (fs : FS χ) : Option String → Bool
  | none => false
  | some p => (lookupFS fs (stripDirName p)).isSome

/-- `cleanExpiredFiles` from chunkCache.ts lines 123–153: every `.json` file
whose mtime age exceeds `CACHE_TTL` is unlinked; other files are skipped. -/
def cleanExpiredFiles {χ : Type} (now : Nat) (fs : FS χ) : FS χ :=
  List.filter
    (fun e => !(strEndsWith e.1 ".json" && decide ((now : Int) - e.2.mtime > (CACHE_TTL : Int))))
    fs

/-- The `.json` entries of the directory (`files.filter(f => f.endsWith('.json'))`). -/
def jsonEntries {χ : Type} (fs : FS χ) : FS χ :=
  List.filter (fun e => strEndsWith e.1 ".json") fs

/-- The comparator `(a, b) => a.mtime - b.mtime` of `enforceFileLimits`:
the "sorts no later than" relation on directory entries. -/
def mtimeLE {χ : Type} (a b : String × FileRec χ) : Prop :=
  a.2.mtime ≤ b.2.mtime

instance {χ : Type} : DecidableRel (@mtimeLE χ) :=
  fun a b => Nat.decLe a.2.mtime b.2.mtime

instance {χ : Type} : IsTotal (String × FileRec χ) mtimeLE :=
  ⟨fun a b => Nat.le_total a.2.mtime b.2.mtime⟩

instance {χ : Type} : IsTrans (String × FileRec χ) mtimeLE :=
  ⟨fun _ _ _ hab hbc => Nat.le_trans hab hbc⟩

/-- `enforceFileLimits` from chunkCache.ts lines 158–182: list the `.json`
entries, sort ascending by mtime (a stable sort, as ECMAScript
`Array.prototype.sort`), and when the count exceeds `MAX_CACHE_FILES`
unlink the oldest surplus. -/
def enforceFileLimits {χ : Type} (fs : FS χ) : FS χ :=
  let files := List.insertionSort mtimeLE (jsonEntries fs)
  if files.length > MAX_CACHE_FILES then
    let toRemove := files.take (files.length - MAX_CACHE_FILES)
    toRemove.foldl (fun acc f => removeFS acc f.1) fs
  else fs

/-- The key-retry loop of `cacheChunks` (chunkCache.ts lines 53–58):
`for (let i = 0; i < 5 && filePath && fs.existsSync(filePath); i++)` redraws
the key.  `fuel` counts the remaining iterations (initially 5) and `drawIdx`
indexes the next value taken from the random source. -/
def keyLoop {χ : Type} (rand : Nat → Nat) (fs : FS χ) :
    Nat → Nat → String → Option String → String × Option String
  | 0, _, cacheKey, filePath => (cacheKey, filePath)
  | fuel + 1, drawIdx, cacheKey, filePath =>
    if pathExists fs filePath then
      let k := toHex8 (rand drawIdx)
      keyLoop rand fs fuel (drawIdx + 1) k (resolveCachePath k)
    else (cacheKey, filePath)

/-- `cacheChunks` from chunkCache.ts lines 45–84.  Parameters beyond the
source's own: `sha256hex` (the hex digest of `createHash('sha256')`),
`rand` (the stream of 32-bit values behind `randomBytes(4)`), `writeOk`
(whether the guarded `writeFileSync`/`JSON.stringify` succeeds), and `now`
(`Date.now()`).  Returns the key handed back to the caller and the final
directory state. -/
def cacheChunks {χ : Type} (sha256hex : String → String) (rand : Nat → Nat)
    (writeOk : Bool) (now : Nat) (prompt : String) (chunks : List χ)
    (fs0 : FS χ) : String × FS χ :=
  let fs1 := cleanExpiredFiles now fs0
  let promptHash := sha256hex prompt
  let k0 := toHex8 (rand 0)
  let gen := keyLoop rand fs1 5 1 k0 (resolveCachePath k0)
  -- after the loop: `if (!filePath)` falls back to the prompt-hash prefix,
  -- and if even that fails to resolve, logs and returns the prefix directly.
  let store : String → String → String × FS χ := fun p key =>
    let entry : CacheEntry χ := ⟨chunks, now, promptHash⟩
    let fs2 := if writeOk then writeFS fs1 (stripDirName p) ⟨FileContent.valid entry, now⟩ else fs1
    (key, enforceFileLimits fs2)
  match gen.2 with
  | some p => store p gen.1
  | none =>
    let ck := strTake promptHash 8
    match resolveCachePath ck with
    | some p => store p ck
    | none => (strTake promptHash 8, fs1)

/-- `getChunks` from chunkCache.ts lines 91–121.  Returns the result handed
to the caller, the directory state after the call, and whether the call
performed any filesystem access (the invalid-key early return at line 93
touches nothing). -/
def getChunks {χ : Type} (now : Nat) (cacheKey : String) (fs : FS χ) :
    Option (List χ) × FS χ × Bool :=
  match resolveCachePath cacheKey with
  | none => (none, fs, false)
  | some p =>
    let name := stripDirName p
    match lookupFS fs name with
    | none => (none, fs, true)
    | some file =>
      match file.content with
      | FileContent.corrupt => (none, removeFS fs name, true)
      | FileContent.valid data =>
        if (now : Int) - data.timestamp > (CACHE_TTL : Int) then
          (none, removeFS fs name, true)
        else
          (some data.chunks, fs, true)

/-- The record `getCacheStats` returns (chunkCache.ts lines 184–199). -/
structure CacheStats where
  size : Nat
  ttl : Nat
  maxSize : Nat
  cacheDir : String
  deriving DecidableEq, Repr

/-- `getCacheStats` from chunkCache.ts lines 184–199: counts the `.json`
files. -/
def getCacheStats {χ : Type} (fs : FS χ) : CacheStats :=
  ⟨(jsonEntries fs).length, CACHE_TTL, MAX_CACHE_FILES, CACHE_DIR⟩

/-- `clearCache` from chunkCache.ts lines 201–216: unlink every `.json`
file. -/
def clearCache {χ : Type} (fs : FS χ) : FS χ :=
  List.filter (fun e => !(strEndsWith e.1 ".json")) fs

/-- Well-formed directory state: file names are unique. -/
def WF {χ : Type} (fs : FS χ) : Prop := (fs.map (fun e => e.1)).Nodup

/-- A concrete 51-entry directory (one more than `MAX_CACHE_FILES`) used to
exercise the eviction bound on a concrete input. -/
def demoFS51 : FS Unit :=
  (List.range 51).map (fun i => (toHex8 i ++ ".json", ⟨FileContent.corrupt, i⟩))

instance {χ : Type} (fs : FS χ) : Decidable (WF fs) :=
  show Decidable ((fs.map (fun e => e.1)).Nodup) from List.nodupDecidable _

end ChunkCache

namespace ChunkLogger

/-- `Logger.shouldLogPrompts` from logger.ts lines 10–12: the environment is
modelled as a partial map from variable names to values. -/
def shouldLogPrompts (env : String → Option String) : Bool :=
  env "GEMINI_MCP_LOG_PROMPTS" == some "1"

/-- `Logger.redactString` from logger.ts lines 14–18: the raw value passes
through when prompt logging is enabled; otherwise it is replaced by a
placeholder built only from its length and the first 12 hex characters of
its sha-256 digest. -/
def redactString (env : String → Option String) (sha256hex : String → String)
    (value : String) : String :=
  if shouldLogPrompts env then value
  else
    "[REDACTED len=" ++ toString value.length ++ " sha256=" ++
      ChunkCache.strTake (sha256hex value) 12 ++ "]"

end ChunkLogger

namespace ChunkCache

/-! ### Helper lemmas: hex keys and the canonical resolved path -/

theorem strMk_append (s t : String) : String.mk (s.data ++ t.data) = s ++ t := rfl

theorem strMk_data (s : String) : String.mk s.data = s := rfl

theorem hexDigitChar_lower {d : Nat} (hd : d < 16) :
    (('a' ≤ hexDigitChar d && hexDigitChar d ≤ 'f') ||
      ('0' ≤ hexDigitChar d && hexDigitChar d ≤ '9')) = true := by
  interval_cases d <;> decide

theorem toHex8_data_length (n : Nat) : (toHex8 n).data.length = 8 := by
  simp [toHex8]

theorem LOWER_HEX8_toHex8 (n : Nat) : LOWER_HEX8 (toHex8 n) = true := by
  have hlen := toHex8_data_length n
  simp only [LOWER_HEX8, Bool.and_eq_true, beq_iff_eq, List.all_eq_true]
  refine ⟨hlen, ?_⟩
  intro c hc
  simp only [toHex8, List.mem_map, List.mem_range] at hc
  obtain ⟨i, _, rfl⟩ := hc
  exact hexDigitChar_lower (Nat.mod_lt _ (by decide))

theorem lower_imp_CI {c : Char}
    (h : (('a' ≤ c && c ≤ 'f') || ('0' ≤ c && c ≤ '9')) = true) :
    isHexDigitCI c = true := by
  simp only [isHexDigitCI, Bool.or_eq_true] at *
  rcases h with h | h
  · exact Or.inl (Or.inl h)
  · exact Or.inl (Or.inr h)

theorem CACHE_KEY_PATTERN_of_lower {s : String} (h : LOWER_HEX8 s = true) :
    CACHE_KEY_PATTERN s = true := by
  simp only [LOWER_HEX8, CACHE_KEY_PATTERN, Bool.and_eq_true, List.all_eq_true] at *
  exact ⟨h.1, fun c hc => lower_imp_CI (h.2 c hc)⟩

theorem CACHE_KEY_PATTERN_toHex8 (n : Nat) : CACHE_KEY_PATTERN (toHex8 n) = true :=
  CACHE_KEY_PATTERN_of_lower (LOWER_HEX8_toHex8 n)

theorem hex_ne_slash {c : Char} (h : isHexDigitCI c = true) : c ≠ '/' := by
  intro hc
  subst hc
  simp [isHexDigitCI] at h

theorem splitChars_no_slash :
    ∀ (cs acc : List Char), (∀ c ∈ cs, c ≠ '/') →
      splitChars cs acc = [acc.reverse ++ cs]
  | [], acc, _ => by simp [splitChars]
  | c :: cs, acc, h => by
    rw [splitChars]
    rw [if_neg (h c (List.mem_cons_self c cs))]
    rw [splitChars_no_slash cs (c :: acc) (fun x hx => h x (List.mem_cons_of_mem c hx))]
    simp

theorem pattern_key_chars {k : String} (h : CACHE_KEY_PATTERN k = true) :
    ∀ c ∈ (k ++ ".json").data, c ≠ '/' := by
  simp only [CACHE_KEY_PATTERN, Bool.and_eq_true, List.all_eq_true] at h
  intro c hc
  rw [String.data_append] at hc
  rcases List.mem_append.mp hc with hc | hc
  · exact hex_ne_slash (h.2 c hc)
  · fin_cases hc <;> decide

theorem pathParts_pattern_key {k : String} (h : CACHE_KEY_PATTERN k = true) :
    pathParts (k ++ ".json") = [k ++ ".json"] := by
  unfold pathParts
  rw [splitChars_no_slash _ [] (pattern_key_chars h)]
  simp only [List.map_cons, List.map_nil, List.reverse_nil, List.nil_append, strMk_data]

theorem pattern_key_len {k : String} (h : CACHE_KEY_PATTERN k = true) :
    (k ++ ".json").data.length = 13 := by
  simp only [CACHE_KEY_PATTERN, Bool.and_eq_true, beq_iff_eq] at h
  rw [String.data_append, List.length_append, h.1]
  decide

theorem normParts_dir_key {x : String} (h1 : x ≠ "") (h2 : x ≠ ".") (h3 : x ≠ "..") :
    normParts (pathParts CACHE_DIR ++ [x]) = ["tmp", "gemini-mcp-chunks", x] := by
  have hdir : pathParts CACHE_DIR = ["", "tmp", "gemini-mcp-chunks"] := by decide
  rw [hdir]
  show normStep (normParts ["", "tmp", "gemini-mcp-chunks"]) x = _
  have : normParts ["", "tmp", "gemini-mcp-chunks"] = ["tmp", "gemini-mcp-chunks"] := by decide
  rw [this, normStep, if_neg, if_neg]
  · rfl
  · exact h3
  · simp [h1, h2]

theorem joinParts_dir_key (x : String) :
    joinParts ["tmp", "gemini-mcp-chunks", x] = "/tmp/gemini-mcp-chunks/" ++ x := by
  show ((("" ++ "/" ++ "tmp") ++ "/" ++ "gemini-mcp-chunks") ++ "/") ++ x = _
  have : (("" ++ "/" ++ "tmp") ++ "/" ++ "gemini-mcp-chunks") ++ "/" =
      "/tmp/gemini-mcp-chunks/" := by decide
  rw [this]

theorem pattern_key_not_abs {k : String} (h : CACHE_KEY_PATTERN k = true) :
    strStartsWith (k ++ ".json") "/" = false := by
  simp only [CACHE_KEY_PATTERN, Bool.and_eq_true, beq_iff_eq, List.all_eq_true] at h
  unfold strStartsWith
  rw [String.data_append]
  cases hk : k.data with
  | nil => rw [hk] at h; simp at h
  | cons c cs =>
    have hc : isHexDigitCI c = true := by
      apply h.2
      rw [hk]
      exact List.mem_cons_self c cs
    have : c ≠ '/' := hex_ne_slash hc
    simp only [List.cons_append, List.isPrefixOf]
    show (('/' == c) && _) = false
    have : ('/' == c) = false := by
      rcases hbe : ('/' == c) with _ | _
      · rfl
      · exact absurd (beq_iff_eq.mp hbe).symm this
    rw [this, Bool.false_and]

/-- The central path lemma: a key that passes the pattern resolves to the
canonical in-directory path. -/
theorem resolveCachePath_pattern {k : String} (h : CACHE_KEY_PATTERN k = true) :
    resolveCachePath k = some ("/tmp/gemini-mcp-chunks/" ++ (k ++ ".json")) := by
  have hlen := pattern_key_len h
  have hres : pathResolveTwo CACHE_DIR (k ++ ".json") =
      "/tmp/gemini-mcp-chunks/" ++ (k ++ ".json") := by
    unfold pathResolveTwo
    rw [pattern_key_not_abs h]
    simp only [Bool.false_eq_true, if_false]
    rw [pathParts_pattern_key h]
    rw [normParts_dir_key (by intro hx; rw [hx] at hlen; simp at hlen)
      (by intro hx; rw [hx] at hlen; simp at hlen)
      (by intro hx; rw [hx] at hlen; simp at hlen)]
    exact joinParts_dir_key _
  have hbase : pathResolveOne CACHE_DIR = "/tmp/gemini-mcp-chunks" := by decide
  unfold resolveCachePath
  rw [h]
  simp only [Bool.not_true, Bool.false_eq_true, if_false]
  rw [hbase, hres]
  have hpre : strStartsWith ("/tmp/gemini-mcp-chunks/" ++ (k ++ ".json"))
      ("/tmp/gemini-mcp-chunks" ++ pathSep) = true := by
    unfold strStartsWith
    have : ("/tmp/gemini-mcp-chunks" ++ pathSep) = "/tmp/gemini-mcp-chunks/" := by decide
    rw [this, String.data_append]
    exact List.isPrefixOf_iff_prefix.mpr (List.prefix_append _ _)
  rw [hpre]
  exact rfl

theorem stripDirName_canonical (x : String) :
    stripDirName ("/tmp/gemini-mcp-chunks/" ++ x) = x := by
  unfold stripDirName strDrop
  rw [String.data_append]
  have : CACHE_DIR.length + 1 = ("/tmp/gemini-mcp-chunks/" : String).data.length := by decide
  rw [this, List.drop_left]

/-! ### Helper lemmas: the filesystem model -/

theorem lookupFS_writeFS_self {χ : Type} (fs : FS χ) (n : String) (f : FileRec χ) :
    lookupFS (writeFS fs n f) n = some f := by
  unfold lookupFS writeFS
  rw [List.find?_cons_of_pos _ (by simp)]
  rfl

theorem lookupFS_removeFS_self {χ : Type} (fs : FS χ) (n : String) :
    lookupFS (removeFS fs n) n = none := by
  unfold lookupFS removeFS
  induction fs with
  | nil => rfl
  | cons e fs ih =>
    rcases hbn : (e.1 == n) with _ | _
    · simp only [List.filter_cons, hbn, Bool.not_false, if_true, List.find?_cons, hbn]
      simp
    · simp only [List.filter_cons, hbn, Bool.not_true, Bool.false_eq_true, if_false]
      exact ih

theorem lookupFS_removeFS_ne {χ : Type} (fs : FS χ) (n m : String) (h : m ≠ n) :
    lookupFS (removeFS fs n) m = lookupFS fs m := by
  unfold lookupFS removeFS
  congr 1
  induction fs with
  | nil => rfl
  | cons e fs ih =>
    rcases hbn : (e.1 == n) with _ | _
    · rcases hbm : (e.1 == m) with _ | _
      · simp only [List.filter_cons, hbn, Bool.not_false, if_true, List.find?_cons, hbm,
          Bool.false_eq_true, if_false]
        exact ih
      · simp [List.filter_cons, hbn, List.find?_cons, hbm]
    · have hbm : (e.1 == m) = false := by
        rcases hb : (e.1 == m) with _ | _
        · rfl
        · exact absurd ((beq_iff_eq.mp hb).symm.trans (beq_iff_eq.mp hbn)) h
      simp only [List.filter_cons, hbn, Bool.not_true, Bool.false_eq_true, if_false,
        List.find?_cons, hbm]
      exact ih

theorem lookupFS_mem {χ : Type} {fs : FS χ} {n : String} {f : FileRec χ}
    (h : lookupFS fs n = some f) : (n, f) ∈ fs := by
  unfold lookupFS at h
  cases hf : List.find? (fun e => e.1 == n) fs with
  | none => rw [hf] at h; simp at h
  | some e =>
    rw [hf] at h
    simp only [Option.map] at h
    have hmem := List.mem_of_find?_eq_some hf
    have hpred := List.find?_some hf
    have : e.1 = n := beq_iff_eq.mp hpred
    have : e = (n, f) := by
      cases e
      simp only at this h
      rw [this, Option.some.inj h]
    rw [← this]
    exact hmem

theorem mem_removeFS {χ : Type} {fs : FS χ} {n : String} {e : String × FileRec χ}
    (h : e ∈ removeFS fs n) : e ∈ fs :=
  (List.mem_filter.mp h).1

theorem mem_foldl_removeFS {χ : Type} :
    ∀ (l : List (String × FileRec χ)) (fs : FS χ) (e : String × FileRec χ),
      e ∈ l.foldl (fun acc f => removeFS acc f.1) fs → e ∈ fs
  | [], _, _, h => h
  | r :: l, fs, e, h => mem_removeFS (mem_foldl_removeFS l (removeFS fs r.1) e h)

theorem mem_enforceFileLimits {χ : Type} {fs : FS χ} {e : String × FileRec χ}
    (h : e ∈ enforceFileLimits fs) : e ∈ fs := by
  simp only [enforceFileLimits] at h
  split at h
  · exact mem_foldl_removeFS _ _ _ h
  · exact h

theorem lookupFS_enforce_mem {χ : Type} {fs : FS χ} {n : String} {f : FileRec χ}
    (h : lookupFS (enforceFileLimits fs) n = some f) : (n, f) ∈ fs :=
  mem_enforceFileLimits (lookupFS_mem h)

theorem writeFS_unique {χ : Type} {fs : FS χ} {n : String} {v : FileRec χ}
    {e : String × FileRec χ} (h : e ∈ writeFS fs n v) (hn : e.1 = n) : e.2 = v := by
  unfold writeFS at h
  rcases List.mem_cons.mp h with h | h
  · rw [h]
  · exfalso
    have hmem := (List.mem_filter.mp h).2
    rw [beq_iff_eq.mpr hn] at hmem
    exact absurd hmem (by decide)

/-! ### Helper lemmas: eviction -/

theorem foldl_removeFS_eq_filter {χ : Type} :
    ∀ (l : List (String × FileRec χ)) (fs : FS χ),
      l.foldl (fun acc f => removeFS acc f.1) fs =
        fs.filter (fun e => l.all (fun r => !(r.1 == e.1)))
  | [], fs => by
    simp only [List.foldl_nil, List.all_nil]
    exact (List.filter_eq_self.mpr (fun _ _ => rfl)).symm
  | r :: l, fs => by
    rw [List.foldl_cons, foldl_removeFS_eq_filter l (removeFS fs r.1)]
    unfold removeFS
    rw [List.filter_filter]
    apply List.filter_congr
    intro e _
    simp only [List.all_cons]
    rw [Bool.beq_comm, Bool.and_comm]

theorem keep_eq_false_of_mem {χ : Type} (l : List (String × FileRec χ))
    (r : String × FileRec χ) (hr : r ∈ l) :
    l.all (fun r' => !(r'.1 == r.1)) = false := by
  rcases hall : l.all (fun r' => !(r'.1 == r.1)) with _ | _
  · rfl
  · exfalso
    have := List.all_eq_true.mp hall r hr
    simp at this

/-- After `enforceFileLimits`, at most `MAX_CACHE_FILES` `.json` entries
remain. -/
theorem jsonEntries_enforce_le {χ : Type} (fs : FS χ) :
    (jsonEntries (enforceFileLimits fs)).length ≤ MAX_CACHE_FILES := by
  simp only [enforceFileLimits]
  split
  · rename_i hgt
    rw [List.length_insertionSort] at hgt
    rw [foldl_removeFS_eq_filter]
    set l := List.insertionSort mtimeLE (jsonEntries fs) with hl
    have hperm : List.Perm l (jsonEntries fs) := by
      rw [hl]
      exact List.perm_insertionSort _ _
    set k := l.length - MAX_CACHE_FILES with hk
    set keep : (String × FileRec χ) → Bool :=
      fun e => (l.take k).all (fun r => !(r.1 == e.1)) with hkeep
    have h1 : jsonEntries (fs.filter keep) = (jsonEntries fs).filter keep := by
      unfold jsonEntries
      rw [List.filter_filter, List.filter_filter]
      apply List.filter_congr
      intro e _
      rw [Bool.and_comm]
    rw [h1]
    have h2 : ((jsonEntries fs).filter keep).length = (l.filter keep).length :=
      (List.Perm.length_eq (List.Perm.filter keep hperm)).symm
    rw [h2]
    have h3 : l.filter keep = (l.drop k).filter keep := by
      conv_lhs => rw [← List.take_append_drop k l]
      rw [List.filter_append]
      have : (l.take k).filter keep = [] := by
        apply List.filter_eq_nil_iff.mpr
        intro r hr
        rw [hkeep]
        simp only [Bool.not_eq_true]
        exact keep_eq_false_of_mem (l.take k) r hr
      rw [this, List.nil_append]
    rw [h3]
    calc ((l.drop k).filter keep).length ≤ (l.drop k).length := List.length_filter_le _ _
      _ = l.length - k := List.length_drop k l
      _ ≤ MAX_CACHE_FILES := by
        rw [hk, hl, List.length_insertionSort]
        omega
  · rename_i hle
    rw [List.length_insertionSort] at hle
    omega

/-- `mtimeLE` is total and transitive, so the sort used by eviction is
genuinely sorted. -/
theorem sorted_mtime {χ : Type} (fs : FS χ) :
    (List.insertionSort mtimeLE (jsonEntries fs)).Pairwise mtimeLE :=
  List.sorted_insertionSort mtimeLE (jsonEntries fs)

theorem WF_eq_of_fst_eq {χ : Type} {fs : FS χ} (hwf : WF fs)
    {e r : String × FileRec χ} (he : e ∈ fs) (hr : r ∈ fs) (hfst : e.1 = r.1) :
    e = r := by
  induction fs with
  | nil => exact absurd he (List.not_mem_nil e)
  | cons x fs ih =>
    have hwf' : WF fs := (List.nodup_cons.mp hwf).2
    have hx : x.1 ∉ fs.map (fun e => e.1) := (List.nodup_cons.mp hwf).1
    rcases List.mem_cons.mp he with he | he <;> rcases List.mem_cons.mp hr with hr | hr
    · rw [he, hr]
    · exfalso
      apply hx
      rw [← he, hfst]
      exact List.mem_map.mpr ⟨r, hr, rfl⟩
    · exfalso
      apply hx
      rw [← hr, ← hfst]
      exact List.mem_map.mpr ⟨e, he, rfl⟩
    · exact ih hwf' he hr

/-- The entries `enforceFileLimits` removes are `.json` entries no newer
(by mtime) than any surviving `.json` entry. -/
theorem enforce_removes_oldest {χ : Type} {fs : FS χ} (hwf : WF fs)
    {e : String × FileRec χ} (he : e ∈ fs) (hrem : e ∉ enforceFileLimits fs) :
    strEndsWith e.1 ".json" = true ∧
      ∀ e' ∈ enforceFileLimits fs, strEndsWith e'.1 ".json" = true →
        e.2.mtime ≤ e'.2.mtime := by
  have hsorted := sorted_mtime fs
  simp only [enforceFileLimits] at hrem ⊢
  set l := List.insertionSort mtimeLE (jsonEntries fs) with hl
  have hperm : List.Perm l (jsonEntries fs) := by
    rw [hl]
    exact List.perm_insertionSort _ _
  set k := l.length - MAX_CACHE_FILES with hk
  by_cases hgt : l.length > MAX_CACHE_FILES
  · rw [if_pos hgt] at hrem ⊢
    rw [foldl_removeFS_eq_filter] at hrem ⊢
    set keep : (String × FileRec χ) → Bool :=
      fun e => (l.take k).all (fun r => !(r.1 == e.1)) with hkeep
    -- e was removed: keep e = false, so some taken (oldest) entry shares its name;
    -- by uniqueness of names that entry is e itself.
    have hkeepe : ((l.take k).all (fun r => !(r.1 == e.1))) = false := by
      rcases hko : keep e with _ | _
      · exact hko
      · exact absurd (List.mem_filter.mpr ⟨he, hko⟩) hrem
    have hex : ∃ r ∈ l.take k, (r.1 == e.1) = true := by
      by_contra hno
      push_neg at hno
      have hall : (l.take k).all (fun r => !(r.1 == e.1)) = true := by
        apply List.all_eq_true.mpr
        intro r hr
        rcases hbr : (r.1 == e.1) with _ | _
        · rfl
        · exact absurd hbr (hno r hr)
      rw [hall] at hkeepe
      exact Bool.noConfusion hkeepe
    obtain ⟨r, hrtake, hre⟩ := hex
    have hrl : r ∈ l := List.mem_of_mem_take hrtake
    have hrfs : r ∈ fs := (List.mem_filter.mp (hperm.mem_iff.mp hrl)).1
    have hrjson : strEndsWith r.1 ".json" = true :=
      (List.mem_filter.mp (hperm.mem_iff.mp hrl)).2
    have hre' : r = e := WF_eq_of_fst_eq hwf hrfs he (beq_iff_eq.mp hre)
    subst hre'
    refine ⟨hrjson, ?_⟩
    intro e' he' hj'
    have hkeepe' : ((l.take k).all (fun r => !(r.1 == e'.1))) = true :=
      (List.mem_filter.mp he').2
    have he'fs : e' ∈ fs := (List.mem_filter.mp he').1
    -- e' survives, so it is not among the taken entries; as a json entry it
    -- sits in the dropped (newer) part of the sorted list.
    have he'json : e' ∈ jsonEntries fs := List.mem_filter.mpr ⟨he'fs, hj'⟩
    have he'l : e' ∈ l := hperm.mem_iff.mpr he'json
    have he'split : e' ∈ l.take k ++ l.drop k := by
      rw [List.take_append_drop]
      exact he'l
    have he'drop : e' ∈ l.drop k := by
      rcases List.mem_append.mp he'split with h | h
      · exfalso
        have hko := keep_eq_false_of_mem (l.take k) e' h
        rw [hkeepe'] at hko
        exact Bool.noConfusion hko
      · exact h
    have hpair : ∀ a ∈ l.take k, ∀ b ∈ l.drop k, mtimeLE a b := by
      have hs := hsorted
      rw [← List.take_append_drop k l] at hs
      exact (List.pairwise_append.mp hs).2.2
    exact hpair r hrtake e' he'drop
  · rw [if_neg hgt] at hrem
    exact absurd he hrem

/-! ### Helper lemmas: the key-generation loop -/

theorem keyLoop_shape {χ : Type} (rand : Nat → Nat) (fs : FS χ) :
    ∀ (fuel drawIdx : Nat) (j : Nat),
      ∃ j', keyLoop rand fs fuel drawIdx (toHex8 (rand j))
          (resolveCachePath (toHex8 (rand j))) =
        (toHex8 (rand j'), resolveCachePath (toHex8 (rand j')))
  | 0, _, j => ⟨j, rfl⟩
  | fuel + 1, drawIdx, j => by
    rw [keyLoop]
    split
    · exact keyLoop_shape rand fs fuel (drawIdx + 1) drawIdx
    · exact ⟨j, rfl⟩

/-- In `cacheChunks`, the generated key is always one of the random draws,
its path always resolves, and the fingerprint fallback is unreachable. -/
theorem cacheChunks_gen_shape {χ : Type} (rand : Nat → Nat) (fs1 : FS χ) :
    ∃ j, keyLoop rand fs1 5 1 (toHex8 (rand 0)) (resolveCachePath (toHex8 (rand 0))) =
      (toHex8 (rand j), resolveCachePath (toHex8 (rand j))) :=
  keyLoop_shape rand fs1 5 1 0

/-- In `cacheChunks` the fallback branches are unreachable: the generated key
is one of the random draws, and the final state is the enforced state after
the (possibly failed) write of the new entry at that key. -/
theorem cacheChunks_eq {χ : Type} (sha256hex : String → String) (rand : Nat → Nat)
    (writeOk : Bool) (now : Nat) (prompt : String) (chunks : List χ) (fs0 : FS χ) :
    ∃ j, (cacheChunks sha256hex rand writeOk now prompt chunks fs0).1 = toHex8 (rand j) ∧
      (cacheChunks sha256hex rand writeOk now prompt chunks fs0).2 =
        enforceFileLimits (if writeOk then
            writeFS (cleanExpiredFiles now fs0) (toHex8 (rand j) ++ ".json")
              ⟨FileContent.valid ⟨chunks, now, sha256hex prompt⟩, now⟩
          else cleanExpiredFiles now fs0) := by
  obtain ⟨j, hj⟩ := cacheChunks_gen_shape rand (cleanExpiredFiles now fs0)
  have hres := resolveCachePath_pattern (CACHE_KEY_PATTERN_toHex8 (rand j))
  rw [hres] at hj
  refine ⟨j, ?_, ?_⟩
  · rw [cacheChunks.eq_def]
    simp only []
    rw [hj]
  · rw [cacheChunks.eq_def]
    simp only []
    rw [hj]
    dsimp only
    rw [stripDirName_canonical]

/-- One iteration of the retry loop under a collision. -/
theorem keyLoop_step {χ : Type} (rand : Nat → Nat) (fs : FS χ) (fuel drawIdx : Nat)
    (k : String) (fp : Option String) (h : pathExists fs fp = true) :
    keyLoop rand fs (fuel + 1) drawIdx k fp =
      keyLoop rand fs fuel (drawIdx + 1) (toHex8 (rand drawIdx))
        (resolveCachePath (toHex8 (rand drawIdx))) := by
  rw [keyLoop]
  rw [if_pos h]

/-! ### Claim theorems -/

/-- C4: for every candidate key, if `resolveCachePath` returns a path then
that path (already canonical) starts with the canonicalized cache directory
plus a path separator, and any key whose candidate path would escape the
cache directory is rejected (`resolveCachePath` returns `none`); the
function itself is pure, so the rejection happens before any disk access. -/
theorem C4_traversal_safety (key : String) :
    (∀ p, resolveCachePath key = some p →
      strStartsWith p (pathResolveOne CACHE_DIR ++ pathSep) = true) ∧
    (strStartsWith (pathResolveTwo CACHE_DIR (key ++ ".json"))
        (pathResolveOne CACHE_DIR ++ pathSep) = false →
      resolveCachePath key = none) := by
  constructor
  · intro p hp
    rw [resolveCachePath.eq_def] at hp
    simp only [] at hp
    split at hp
    · exact Option.noConfusion hp
    · split at hp
      · exact Option.noConfusion hp
      · rename_i hchk
        have hpe := Option.some.inj hp
        rw [← hpe]
        simp only [Bool.not_eq_true', Bool.not_eq_false] at hchk
        exact hchk
  · intro hesc
    rw [resolveCachePath.eq_def]
    simp only []
    split
    · rfl
    · rw [hesc]
      rfl

/-- C4 witness: the valid key "abcd1234" resolves, and its resolved path
starts with the canonical cache directory plus separator. -/
theorem C4_traversal_safety_witness :
    strStartsWith "/tmp/gemini-mcp-chunks/abcd1234.json"
      (pathResolveOne CACHE_DIR ++ pathSep) = true :=
  (C4_traversal_safety "abcd1234").1 "/tmp/gemini-mcp-chunks/abcd1234.json" (by decide)

/-- C3 as claimed is false: the source pattern carries the `i` flag, so an
uppercase-hex key such as "AAAAAAAA" passes validation and `getChunks`
does reach the filesystem (`existsSync`) for it. -/
theorem C3_counterexample :
    LOWER_HEX8 "AAAAAAAA" = false ∧
      (getChunks 0 "AAAAAAAA" ([] : FS Unit)).2.2 = true := by
  constructor
  · decide
  · decide

/-- C3 (amended): for every key that fails the case-insensitive pattern
`/^[a-f0-9]{8}$/i`, `getChunks` returns absent, leaves the state unchanged
and performs no filesystem access at all. -/
theorem C3_invalid_key_no_fs {χ : Type} (now : Nat) (key : String) (fs : FS χ)
    (h : CACHE_KEY_PATTERN key = false) :
    getChunks now key fs = (none, fs, false) := by
  have hnone : resolveCachePath key = none := by
    rw [resolveCachePath.eq_def]
    simp only []
    rw [h]
    rfl
  rw [getChunks.eq_def, hnone]

/-- C3 witness: the malformed key "zzzz" is rejected with no filesystem
access. -/
theorem C3_invalid_key_no_fs_witness :
    CACHE_KEY_PATTERN "zzzz" = false ∧
      getChunks 0 "zzzz" ([] : FS Unit) = (none, [], false) :=
  ⟨by decide, C3_invalid_key_no_fs 0 "zzzz" [] (by decide)⟩

/-- C5: a stored entry whose embedded timestamp is older than the TTL is
reported absent by the next `getChunks` on its key, and its backing file is
removed as a side effect. -/
theorem C5_expired_removed {χ : Type} (now : Nat) (key : String) (fs : FS χ)
    (entry : CacheEntry χ) (m : Nat)
    (hkey : CACHE_KEY_PATTERN key = true)
    (hstored : lookupFS fs (key ++ ".json") = some ⟨FileContent.valid entry, m⟩)
    (hexp : (now : Int) - entry.timestamp > (CACHE_TTL : Int)) :
    (getChunks now key fs).1 = none ∧
      lookupFS (getChunks now key fs).2.1 (key ++ ".json") = none := by
  have hres := resolveCachePath_pattern hkey
  rw [getChunks.eq_def, hres]
  simp only []
  rw [stripDirName_canonical, hstored]
  dsimp only
  rw [if_pos hexp]
  exact ⟨rfl, lookupFS_removeFS_self fs (key ++ ".json")⟩

/-- C5 witness: an entry written at time 0 is absent and deleted when read
at a time just past the TTL. -/
theorem C5_expired_removed_witness :
    CACHE_KEY_PATTERN "abcd1234" = true ∧
      lookupFS ([("abcd1234.json",
          ⟨FileContent.valid ⟨([] : List Unit), 0, "h"⟩, 0⟩)] : FS Unit)
          ("abcd1234" ++ ".json") =
        some ⟨FileContent.valid ⟨([] : List Unit), 0, "h"⟩, 0⟩ ∧
      ((600001 : Int) - (0 : Nat) > (CACHE_TTL : Int)) ∧
      ((getChunks 600001 "abcd1234"
          ([("abcd1234.json", ⟨FileContent.valid ⟨([] : List Unit), 0, "h"⟩, 0⟩)])).1 = none ∧
        lookupFS (getChunks 600001 "abcd1234"
            ([("abcd1234.json",
              ⟨FileContent.valid ⟨([] : List Unit), 0, "h"⟩, 0⟩)])).2.1
          ("abcd1234" ++ ".json") = none) :=
  ⟨by decide, by decide, by decide,
    C5_expired_removed 600001 "abcd1234" _ ⟨[], 0, "h"⟩ 0 (by decide) (by decide) (by decide)⟩

/-- C7: a stored file at a valid key whose content does not parse as a
cache entry is deleted and reported not-found; no failure propagates (the
model function is total and returns the not-found value). -/
theorem C7_corrupt_self_heal {χ : Type} (now : Nat) (key : String) (fs : FS χ) (m : Nat)
    (hkey : CACHE_KEY_PATTERN key = true)
    (hstored : lookupFS fs (key ++ ".json") = some ⟨FileContent.corrupt, m⟩) :
    (getChunks now key fs).1 = none ∧
      lookupFS (getChunks now key fs).2.1 (key ++ ".json") = none := by
  have hres := resolveCachePath_pattern hkey
  rw [getChunks.eq_def, hres]
  simp only []
  rw [stripDirName_canonical, hstored]
  exact ⟨rfl, lookupFS_removeFS_self fs (key ++ ".json")⟩

/-- C7 witness: a corrupt file at a valid key is removed and reported
not-found. -/
theorem C7_corrupt_self_heal_witness :
    CACHE_KEY_PATTERN "abcd1234" = true ∧
      lookupFS ([("abcd1234.json", ⟨FileContent.corrupt, 3⟩)] : FS Unit)
          ("abcd1234" ++ ".json") = some ⟨FileContent.corrupt, 3⟩ ∧
      ((getChunks 7 "abcd1234" ([("abcd1234.json", ⟨FileContent.corrupt, 3⟩)] : FS Unit)).1 =
          none ∧
        lookupFS (getChunks 7 "abcd1234"
            ([("abcd1234.json", ⟨FileContent.corrupt, 3⟩)] : FS Unit)).2.1
          ("abcd1234" ++ ".json") = none) :=
  ⟨by decide, by decide,
    C7_corrupt_self_heal 7 "abcd1234" _ 3 (by decide) (by decide)⟩

/-- C9: `clearCache` removes every cache entry, so `getCacheStats` directly
afterwards reports size 0. -/
theorem C9_clear_then_stats {χ : Type} (fs : FS χ) :
    (getCacheStats (clearCache fs)).size = 0 ∧ jsonEntries (clearCache fs) = [] := by
  have hnil : jsonEntries (clearCache fs) = [] := by
    unfold jsonEntries clearCache
    rw [List.filter_filter]
    apply List.filter_eq_nil_iff.mpr
    intro e _
    rcases hj : strEndsWith e.1 ".json" with _ | _ <;> simp [hj]
  constructor
  · show (jsonEntries (clearCache fs)).length = 0
    rw [hnil]
    rfl
  · exact hnil

/-- C2: with a successful write (`writeOk = true`), no eviction of the new
entry (its file is still present in the final state) and a read before the
TTL has elapsed, `getChunks` on the key returned by `cacheChunks` yields
exactly the original chunk sequence. -/
theorem C2_roundtrip {χ : Type} (sha256hex : String → String) (rand : Nat → Nat)
    (now now2 : Nat) (prompt : String) (chunks : List χ) (fs0 : FS χ)
    (hkept : lookupFS (cacheChunks sha256hex rand true now prompt chunks fs0).2
        ((cacheChunks sha256hex rand true now prompt chunks fs0).1 ++ ".json") ≠ none)
    (htime : (now2 : Int) - (now : Int) ≤ (CACHE_TTL : Int)) :
    (getChunks now2 (cacheChunks sha256hex rand true now prompt chunks fs0).1
        (cacheChunks sha256hex rand true now prompt chunks fs0).2).1 = some chunks := by
  obtain ⟨j, hkey, hfs⟩ := cacheChunks_eq sha256hex rand true now prompt chunks fs0
  rw [hkey, hfs] at hkept ⊢
  rw [if_pos rfl] at hkept ⊢
  rcases hl : lookupFS (enforceFileLimits (writeFS (cleanExpiredFiles now fs0)
      (toHex8 (rand j) ++ ".json")
      ⟨FileContent.valid ⟨chunks, now, sha256hex prompt⟩, now⟩))
      (toHex8 (rand j) ++ ".json") with _ | f
  · exact absurd hl hkept
  · have hf : f = ⟨FileContent.valid ⟨chunks, now, sha256hex prompt⟩, now⟩ :=
      writeFS_unique (lookupFS_enforce_mem hl) rfl
    have hres := resolveCachePath_pattern (CACHE_KEY_PATTERN_toHex8 (rand j))
    rw [getChunks.eq_def, hres]
    simp only []
    rw [stripDirName_canonical, hl, hf]
    dsimp only
    rw [if_neg (by omega)]

/-- C2 witness: caching `[1, 2]` at time 5 and reading one millisecond later
returns `[1, 2]`. -/
theorem C2_roundtrip_witness :
    (lookupFS (cacheChunks (fun _ => "hh") (fun _ => 0) true 5 "p" [1, 2]
          ([] : FS Nat)).2
        ((cacheChunks (fun _ => "hh") (fun _ => 0) true 5 "p" [1, 2] ([] : FS Nat)).1 ++
          ".json") ≠ none) ∧
      ((6 : Int) - (5 : Nat) ≤ (CACHE_TTL : Int)) ∧
      (getChunks 6 (cacheChunks (fun _ => "hh") (fun _ => 0) true 5 "p" [1, 2]
            ([] : FS Nat)).1
          (cacheChunks (fun _ => "hh") (fun _ => 0) true 5 "p" [1, 2]
            ([] : FS Nat)).2).1 = some [1, 2] :=
  ⟨by decide, by decide,
    C2_roundtrip (fun _ => "hh") (fun _ => 0) 5 6 "p" [1, 2] [] (by decide) (by decide)⟩

/-- C8: when the guarded write fails (`writeOk = false`), `cacheChunks`
still returns the very key generated before the write attempt (the same
key a successful run returns), and that key is 8 lowercase hex characters;
no failure is raised (the model function is total). -/
theorem C8_key_survives_write_failure {χ : Type} (sha256hex : String → String)
    (rand : Nat → Nat) (now : Nat) (prompt : String) (chunks : List χ) (fs0 : FS χ) :
    (cacheChunks sha256hex rand false now prompt chunks fs0).1 =
      (cacheChunks sha256hex rand true now prompt chunks fs0).1 ∧
    LOWER_HEX8 ((cacheChunks sha256hex rand false now prompt chunks fs0).1) = true := by
  obtain ⟨j, hj⟩ := cacheChunks_gen_shape rand (cleanExpiredFiles now fs0)
  have hres := resolveCachePath_pattern (CACHE_KEY_PATTERN_toHex8 (rand j))
  rw [hres] at hj
  constructor
  · rw [cacheChunks.eq_def, cacheChunks.eq_def]
    simp only []
    rw [hj]
  · rw [cacheChunks.eq_def]
    simp only []
    rw [hj]
    dsimp only
    exact LOWER_HEX8_toHex8 (rand j)

/-- C1 as claimed is false: with every random draw colliding against an
existing file, `cacheChunks` does not fall back to the sha-256
prompt-fingerprint key; it returns the last random draw (here "00000000",
while the fingerprint key would be "ffffffff"). -/
theorem C1_counterexample :
    (∀ j, j ≤ 5 → pathExists
        (cleanExpiredFiles 0
          ([("00000000.json", ⟨FileContent.valid ⟨[], 0, ""⟩, 0⟩)] : FS Unit))
        (resolveCachePath (toHex8 ((fun _ => 0) j))) = true) ∧
      (cacheChunks
          (fun _ => "ffffffffffffffffffffffffffffffffffffffffffffffffffffffffffffffff")
          (fun _ => 0) true 0 "p" ([] : List Unit)
          ([("00000000.json", ⟨FileContent.valid ⟨[], 0, ""⟩, 0⟩)] : FS Unit)).1 ≠
        strTake
          ((fun _ : String =>
            "ffffffffffffffffffffffffffffffffffffffffffffffffffffffffffffffff") "p") 8 := by
  constructor
  · decide
  · decide

/-- C1 (amended): if the first draw and all 5 retried draws collide with
existing files, `cacheChunks` returns the 6th (last) random draw — key
generation never raises and the fingerprint fallback is not taken, since
the fallback only fires when path resolution fails, which cannot happen
for a hex-format draw. -/
theorem C1_all_collisions_last_draw {χ : Type} (sha256hex : String → String)
    (rand : Nat → Nat) (writeOk : Bool) (now : Nat) (prompt : String)
    (chunks : List χ) (fs0 : FS χ)
    (hcol : ∀ j, j ≤ 5 → pathExists (cleanExpiredFiles now fs0)
        (resolveCachePath (toHex8 (rand j))) = true) :
    (cacheChunks sha256hex rand writeOk now prompt chunks fs0).1 = toHex8 (rand 5) := by
  have hfinal : keyLoop rand (cleanExpiredFiles now fs0) 5 1 (toHex8 (rand 0))
      (resolveCachePath (toHex8 (rand 0))) =
      (toHex8 (rand 5), resolveCachePath (toHex8 (rand 5))) := by
    calc keyLoop rand (cleanExpiredFiles now fs0) 5 1 (toHex8 (rand 0))
          (resolveCachePath (toHex8 (rand 0)))
        = keyLoop rand (cleanExpiredFiles now fs0) 4 2 (toHex8 (rand 1))
            (resolveCachePath (toHex8 (rand 1))) :=
          keyLoop_step rand _ 4 1 _ _ (hcol 0 (by omega))
      _ = keyLoop rand (cleanExpiredFiles now fs0) 3 3 (toHex8 (rand 2))
            (resolveCachePath (toHex8 (rand 2))) :=
          keyLoop_step rand _ 3 2 _ _ (hcol 1 (by omega))
      _ = keyLoop rand (cleanExpiredFiles now fs0) 2 4 (toHex8 (rand 3))
            (resolveCachePath (toHex8 (rand 3))) :=
          keyLoop_step rand _ 2 3 _ _ (hcol 2 (by omega))
      _ = keyLoop rand (cleanExpiredFiles now fs0) 1 5 (toHex8 (rand 4))
            (resolveCachePath (toHex8 (rand 4))) :=
          keyLoop_step rand _ 1 4 _ _ (hcol 3 (by omega))
      _ = keyLoop rand (cleanExpiredFiles now fs0) 0 6 (toHex8 (rand 5))
            (resolveCachePath (toHex8 (rand 5))) :=
          keyLoop_step rand _ 0 5 _ _ (hcol 4 (by omega))
      _ = (toHex8 (rand 5), resolveCachePath (toHex8 (rand 5))) := rfl
  have hres := resolveCachePath_pattern (CACHE_KEY_PATTERN_toHex8 (rand 5))
  rw [hres] at hfinal
  rw [cacheChunks.eq_def]
  simp only []
  rw [hfinal]

/-- C1 amended witness: with all draws equal to 0 and "00000000.json"
present, the returned key is the 6th draw "00000000". -/
theorem C1_all_collisions_last_draw_witness :
    (∀ j, j ≤ 5 → pathExists
        (cleanExpiredFiles 3
          ([("00000000.json", ⟨FileContent.valid ⟨[], 0, ""⟩, 0⟩)] : FS Unit))
        (resolveCachePath (toHex8 ((fun _ => 0) j))) = true) ∧
      (cacheChunks (fun _ => "aa") (fun _ => 0) true 3 "q" ([] : List Unit)
          ([("00000000.json", ⟨FileContent.valid ⟨[], 0, ""⟩, 0⟩)] : FS Unit)).1 =
        toHex8 ((fun _ => 0) 5) :=
  ⟨by decide,
    C1_all_collisions_last_draw (fun _ => "aa") (fun _ => 0) true 3 "q" [] _ (by decide)⟩

/-- C6: after any write-path call at most `MAX_CACHE_FILES` entries remain,
and (for a well-formed directory) every entry `enforceFileLimits` removes
is a `.json` entry whose mtime is no newer than any surviving `.json`
entry — the surplus oldest are the ones deleted. -/
theorem C6_eviction_bound {χ : Type} (sha256hex : String → String) (rand : Nat → Nat)
    (writeOk : Bool) (now : Nat) (prompt : String) (chunks : List χ) (fs0 : FS χ)
    (fs : FS χ) (hwf : WF fs) (e : String × FileRec χ)
    (he : e ∈ fs) (hrem : e ∉ enforceFileLimits fs) :
    (jsonEntries (cacheChunks sha256hex rand writeOk now prompt chunks fs0).2).length ≤
        MAX_CACHE_FILES ∧
      (strEndsWith e.1 ".json" = true ∧
        ∀ e' ∈ enforceFileLimits fs, strEndsWith e'.1 ".json" = true →
          e.2.mtime ≤ e'.2.mtime) := by
  refine ⟨?_, enforce_removes_oldest hwf he hrem⟩
  obtain ⟨j, _, hfs⟩ := cacheChunks_eq sha256hex rand writeOk now prompt chunks fs0
  rw [hfs]
  exact jsonEntries_enforce_le _

/-- C6 witness: in a 51-entry directory the single entry with the oldest
mtime ("00000000.json", mtime 0) is the one evicted, and a write-path call
leaves at most `MAX_CACHE_FILES` entries. -/
theorem C6_eviction_bound_witness :
    WF demoFS51 ∧
      ("00000000.json", (⟨FileContent.corrupt, 0⟩ : FileRec Unit)) ∈ demoFS51 ∧
      ("00000000.json", (⟨FileContent.corrupt, 0⟩ : FileRec Unit)) ∉
        enforceFileLimits demoFS51 ∧
      ((jsonEntries (cacheChunks (fun _ => "aa") (fun _ => 0) true 0 "p"
            ([] : List Unit) ([] : FS Unit)).2).length ≤ MAX_CACHE_FILES ∧
        (strEndsWith ("00000000.json",
            (⟨FileContent.corrupt, 0⟩ : FileRec Unit)).1 ".json" = true ∧
          ∀ e' ∈ enforceFileLimits demoFS51, strEndsWith e'.1 ".json" = true →
            ("00000000.json",
              (⟨FileContent.corrupt, 0⟩ : FileRec Unit)).2.mtime ≤ e'.2.mtime)) :=
  ⟨by decide, by decide, by decide,
    C6_eviction_bound (fun _ => "aa") (fun _ => 0) true 0 "p" [] [] demoFS51
      (by decide) ("00000000.json", ⟨FileContent.corrupt, 0⟩) (by decide) (by decide)⟩

end ChunkCache

namespace ChunkLogger

/-- C10: with prompt logging disabled, `redactString` produces exactly the
placeholder `[REDACTED len=<length> sha256=<first 12 digest hex chars>]`,
and its output depends on the raw value only through the value's length and
digest: two values agreeing on both produce identical redacted output, so
no other part of the raw text can appear in it. -/
theorem C10_redaction (env : String → Option String) (sha256hex : String → String)
    (value : String) (h : env "GEMINI_MCP_LOG_PROMPTS" ≠ some "1") :
    redactString env sha256hex value =
      "[REDACTED len=" ++ toString value.length ++ " sha256=" ++
        ChunkCache.strTake (sha256hex value) 12 ++ "]" ∧
    ∀ v2 : String, value.length = v2.length →
      ChunkCache.strTake (sha256hex value) 12 = ChunkCache.strTake (sha256hex v2) 12 →
      redactString env sha256hex value = redactString env sha256hex v2 := by
  have hflag : shouldLogPrompts env = false := by
    unfold shouldLogPrompts
    rcases hb : (env "GEMINI_MCP_LOG_PROMPTS" == some "1") with _ | _
    · rfl
    · exact absurd (beq_iff_eq.mp hb) h
  constructor
  · unfold redactString
    rw [hflag]
    rfl
  · intro v2 hlen hdig
    unfold redactString
    rw [hflag, hlen, hdig]
    rfl

/-- C10 witness: with the flag unset, redacting "x" yields the placeholder
built from its length and digest fragment. -/
theorem C10_redaction_witness :
    ((fun _ : String => (none : Option String)) "GEMINI_MCP_LOG_PROMPTS" ≠ some "1") ∧
      (redactString (fun _ => none) (fun _ => "abc") "x" =
          "[REDACTED len=" ++ toString ("x" : String).length ++ " sha256=" ++
            ChunkCache.strTake ((fun _ : String => "abc") "x") 12 ++ "]" ∧
        ∀ v2 : String, ("x" : String).length = v2.length →
          ChunkCache.strTake ((fun _ : String => "abc") "x") 12 =
            ChunkCache.strTake ((fun _ : String => "abc") v2) 12 →
          redactString (fun _ => none) (fun _ => "abc") "x" =
            redactString (fun _ => none) (fun _ => "abc") v2) :=
  ⟨by decide, C10_redaction (fun _ => none) (fun _ => "abc") "x" (by decide)⟩

end ChunkLogger
